import Mathlib

/-!
# EnglishWordMaster — verification of the core game logic

Shallow embedding of the core logic of the quiz application:

* word-game utilities (`wordHelpers.js`): answer checking, letter-puzzle
  generation, hints, shuffling, wrong-option generation, statistics;
* the quiz session controllers (`ListenSpell` / `FillBlank` / `LetterPuzzle`
  components): the three `handleNext` / `handleSkip` / `handleSubmit`
  bodies are textually identical across the three modes, so a single state
  machine embeds all of them;
* the history store (`storageHelper.js`);
* the hybrid speech service (`useSpeech.js`, hybrid version).

Modelling conventions:

* JS strings are `List Char` (for the character-level utilities) or `String`.
* `Math.random()`-driven choices are embedded as explicit parameters: a
  draw `Math.floor(Math.random() * n)` ranges exactly over `[0, n)`, and is
  modelled as `seed % n` for an arbitrary `seed : Nat`, which reaches the
  same set of values; theorems quantify over all seeds.
* JS numbers used here are integers or exact decimal ratios, embedded as
  `Nat` / `ℤ` / `ℚ`; `Math.round` on a nonnegative value is `⌊x + 1/2⌋`.
* React `useState` state is threaded explicitly.  Inside one event handler
  the state variables captured by the closure keep the values of the
  current render; queued `setX` calls are applied when the handler ends.
  The embedding of `handleSkip` (which calls `setResults` and then
  synchronously calls `handleNext`) reflects this: the nested `handleNext`
  reads the *stale* `results` / `isCorrect`.
-/

namespace WordMaster

/-- JavaScript `Math.round` for the nonnegative values that occur here:
round half-up. -/
def jsRound (q : ℚ) : ℤ := ⌊q + 1 / 2⌋

/-! ## Word-game utilities (`src/utils/wordHelpers.js`) -/

/-- JavaScript `String.prototype.trim`, character-level: drop whitespace
from both ends. -/
def trimChars (s : List Char) : List Char :=
  ((s.dropWhile Char.isWhitespace).reverse.dropWhile Char.isWhitespace).reverse

/-- The `trim` operation packaged on `String` (the inputs of interest are ASCII). -/
def jsTrim (s : String) : String :=
  String.mk (trimChars s.toList)

/-- JavaScript `String.prototype.toLowerCase`, character-level (ASCII). -/
def lowerChars (s : List Char) : List Char :=
  s.map Char.toLower

/-- Embeds `checkAnswer(userAnswer, correctWord)`:
case-insensitive, whitespace-trimmed equality. -/
def checkAnswer (userAnswer correctWord : String) : Bool :=
  lowerChars (trimChars userAnswer.toList) ==
    lowerChars (trimChars correctWord.toList)

/-- Embeds `generateLetterPuzzle(word)` from `wordHelpers.js`: for `length ≤ 3`
hide the letter at `Math.floor(length / 2)`; for `length ≤ 6` hide odd
indices; otherwise hide indices with `i % 3 == 1 || i % 5 == 2`. -/
def generateLetterPuzzle (word : List Char) : List Char :=
  if word.length ≤ 3 then
    word.mapIdx (fun i c => if i = word.length / 2 then '_' else c)
  else if word.length ≤ 6 then
    word.mapIdx (fun i c => if i % 2 = 1 then '_' else c)
  else
    word.mapIdx (fun i c => if i % 3 = 1 ∨ i % 5 = 2 then '_' else c)

/-- The masking policy exactly as the specification words it: keyed on the
word length, mask the middle character (`len / 2`) for short words, the odd
indices for medium words, and `i % 3 == 1 ∨ i % 5 == 2` for long words. -/
def specMasksAt (len i : Nat) : Bool :=
  if len ≤ 3 then i == len / 2
  else if len ≤ 6 then i % 2 == 1
  else i % 3 == 1 || i % 5 == 2

/-- The description of `generateLetterPuzzle` in the specification: each masked
index becomes a single underscore, every other character is unchanged. -/
def generateLetterPuzzleSpec (word : List Char) : List Char :=
  word.mapIdx (fun i c => if specMasksAt word.length i then '_' else c)

/-- The `hiddenIndices` accumulation loop of `getHint`: indices of the
puzzle holding `'_'`, in increasing order (`forEach` + `push`). -/
def maskIndicesFrom : List Char → Nat → List Nat
  | [], _ => []
  | c :: cs, i =>
    if c = '_' then i :: maskIndicesFrom cs (i + 1) else maskIndicesFrom cs (i + 1)

/-- Indices of the masked (`'_'`) positions of a puzzle. -/
def maskIndices (p : List Char) : List Nat := maskIndicesFrom p 0

/-- Embeds `getHint(currentPuzzle, correctWord)`: if no masked position remains,
return the puzzle unchanged; otherwise overwrite one randomly chosen masked
position with the corresponding character of `correctWord`.  The random
draw `Math.floor(Math.random() * hiddenIndices.length)` is embedded as
`seed % hiddenIndices.length`.  (In JS an out-of-range read of
`correctWord` would give `undefined`; that situation is modelled with the
default character `'?'` and is unreachable when puzzle and word have the
same length.) -/
def getHint (currentPuzzle correctWord : List Char) (seed : Nat) : List Char :=
  let hiddenIndices := maskIndices currentPuzzle
  if hiddenIndices.length = 0 then currentPuzzle
  else
    let randomIndex := hiddenIndices.getD (seed % hiddenIndices.length) 0
    currentPuzzle.set randomIndex (correctWord.getD randomIndex '?')

/-- One `AnswerResult` record.  `FillBlank` results carry no
`hintsUsed` / `timeout` fields; an absent field reads as `undefined`
in JS, which `calculateStats` treats exactly like `0` / `false`, so the
embedding stores the defaults `0` / `false`. -/
structure AnswerResult where
  word : String
  correct : Bool
  userAnswer : String
  hintsUsed : Nat
  timeout : Bool
deriving DecidableEq

/-- The aggregate record returned by `calculateStats`. -/
structure SessionStats where
  total : Nat
  correct : Nat
  incorrect : Nat
  accuracy : ℤ
  withHints : Nat
  withoutHints : Nat
  correctWithoutHints : Nat
  totalHintsUsed : Nat
  timeoutCount : Nat
deriving DecidableEq

/-- Embeds `calculateStats(results)` from `wordHelpers.js` (the hint-aware
version cited by the specification): accuracy is computed over the
results that used no hints. -/
def calculateStats (results : List AnswerResult) : SessionStats :=
  let total := results.length
  let withHints := (results.filter (fun r => r.hintsUsed > 0)).length
  let timeoutCount := (results.filter (fun r => r.timeout)).length
  let totalHintsUsed := results.foldl (fun sum r => sum + r.hintsUsed) 0
  let correctWithoutHints :=
    (results.filter (fun r => r.correct ∧ r.hintsUsed = 0)).length
  let allCorrect := (results.filter (fun r => r.correct)).length
  let withoutHints := (results.filter (fun r => r.hintsUsed = 0)).length
  let accuracy :=
    if withoutHints > 0 then
      jsRound (((correctWithoutHints : ℚ) / (withoutHints : ℚ)) * 100)
    else 0
  { total := total
    correct := allCorrect
    incorrect := total - allCorrect
    accuracy := accuracy
    withHints := withHints
    withoutHints := withoutHints
    correctWithoutHints := correctWithoutHints
    totalHintsUsed := totalHintsUsed
    timeoutCount := timeoutCount }

/-- The destructuring swap `[a[i], a[j]] = [a[j], a[i]]` used by
`shuffleArray`.  Out-of-range reads (impossible inside the loop) fall back
to `default`. -/
def listSwap [Inhabited α] (l : List α) (i j : Nat) : List α :=
  let vi := l.getD i default
  let vj := l.getD j default
  (l.set i vj).set j vi

/-- The Fisher–Yates loop of `shuffleArray`, counting the loop variable
`i` down; at each `i ≥ 1` the partner index is
`Math.floor(Math.random() * (i + 1))`, embedded as `seed i % (i + 1)`. -/
def shuffleLoop [Inhabited α] (seed : Nat → Nat) (l : List α) : Nat → List α
  | 0 => l
  | i + 1 => shuffleLoop seed (listSwap l (i + 1) (seed (i + 1) % (i + 2))) i

/-- Embeds `shuffleArray(array)` from `wordHelpers.js`: copy, then swap from the
last index down to `1`. -/
def shuffleArray [Inhabited α] (seed : Nat → Nat) (array : List α) : List α :=
  shuffleLoop seed array (array.length - 1)

/-- A static word entry (the fields of the dataset used by the game
logic). -/
structure WordEntry where
  word : String
  meaning : String
  phonetic : String
  exampleSentence : String
deriving DecidableEq, Inhabited

/-- Embeds `generateWrongOptions(allWords, correctWord, count)`: keep the words
different from `correctWord`, shuffle, take the first `count`. -/
def generateWrongOptions (seed : Nat → Nat) (allWords : List WordEntry)
    (correctWord : String) (count : Nat) : List String :=
  let wrongOptions := (allWords.filter (fun w => w.word ≠ correctWord)).map
    (fun w => w.word)
  (shuffleArray seed wrongOptions).take count

/-! ## History store (`src/utils/storageHelper.js`) -/

/-- The persisted state: `localStorage` restricted to the single key
`vocabulary_learning_history` (`none` = key absent). -/
structure HistoryStore where
  record : Option String
deriving DecidableEq

/-- Embeds `getHistory()`: read the record; a missing key yields `[]`; `JSON.parse`
is embedded as an explicit `parse` parameter, and a parse failure
(`none`, the thrown-exception path in JS) is caught, logged, and yields
`[]`. -/
def getHistory (parse : String → Option (List α)) (st : HistoryStore) :
    List α :=
  match st.record with
  | none => []
  | some s => (parse s).getD []

/-- Embeds `clearHistory()`: `localStorage.removeItem(HISTORY_KEY)`. -/
def clearHistory (st : HistoryStore) : HistoryStore :=
  { st with record := none }

/-! ## Quiz session controllers

The three components `ListenSpell`, `FillBlank` and `LetterPuzzle` carry
identical `handleNext` bodies and structurally identical
`handleSubmit` / `handleSkip` bodies (they differ only in which extra
fields — `hintsUsed`, `timeout` — the recorded `AnswerResult` carries, and
in how the answer is produced).  A single state machine therefore embeds
all three controllers; the extra fields are parameters. -/

/-- A working-sequence entry: a word entry plus the mutable
`retryCount`. -/
structure SessionWord where
  word : String
  meaning : String
  phonetic : String
  exampleSentence : String
  retryCount : Nat
deriving DecidableEq, Inhabited

/-- The `useState` variables of one controller, plus `completed`, which
records the invocation of the `onComplete` callback and its payload. -/
structure SessionState where
  words : List SessionWord
  currentIndex : Nat
  results : List AnswerResult
  isCorrect : Option Bool
  showAnswer : Bool
  completed : Option (List AnswerResult)
deriving DecidableEq

/-- Embeds the initial states: `retryCount 0` copies of the words, and the
other initial states. -/
def initSession (ws : List WordEntry) : SessionState :=
  { words := ws.map (fun w =>
      { word := w.word, meaning := w.meaning, phonetic := w.phonetic
        exampleSentence := w.exampleSentence, retryCount := 0 })
    currentIndex := 0
    results := []
    isCorrect := none
    showAnswer := false
    completed := none }

/-- Embeds `handleSubmit`: check the answer, record one `AnswerResult`, show the
answer.  `hints` / `tmo` are the mode-specific extra fields (both absent,
hence `0` / `false`, for `FillBlank`). -/
def handleSubmit (st : SessionState) (userInput : String) (hints : Nat)
    (tmo : Bool) : SessionState :=
  let currentWord := st.words.getD st.currentIndex default
  let correct := checkAnswer userInput currentWord.word
  { st with
    isCorrect := some correct
    showAnswer := true
    results := st.results ++
      [{ word := currentWord.word, correct := correct, userAnswer := userInput
         hintsUsed := hints, timeout := tmo }] }

/-- Embeds `handleNext`: re-insert a first-miss word (retryCount `0`, answer not
correct — in JS `!isCorrect` is also true for the `null` of a skip) at
`min(currentIndex + 3, words.length)`; then either advance or, when
`currentIndex` has reached the end of the *pre-insertion* array (the local
`words` binding is the render snapshot, unaffected by `setWords`), invoke
`onComplete(results)`. -/
def handleNext (st : SessionState) : SessionState :=
  let currentWord := st.words.getD st.currentIndex default
  let updatedWords :=
    if st.isCorrect ≠ some true ∧ currentWord.retryCount = 0 then
      st.words.insertIdx (min (st.currentIndex + 3) st.words.length)
        { currentWord with retryCount := 1 }
    else st.words
  if st.currentIndex < st.words.length - 1 then
    { st with
      words := updatedWords
      currentIndex := st.currentIndex + 1
      showAnswer := false
      isCorrect := none }
  else
    { st with words := updatedWords, completed := some st.results }

/-- Embeds `handleSkip`: queue `setResults([...results, skipEntry])`, then call
`handleNext()` synchronously.  The nested `handleNext` reads the render
snapshot, so its `results` (in particular the `onComplete` payload) and
`isCorrect` are the *stale* values; the queued `results` update is applied
afterwards.  `userInput` is the current input for
`ListenSpell` / `LetterPuzzle` (`userInput` or the skipped marker), always empty
for `FillBlank`. -/
def handleSkip (st : SessionState) (userInput : String) (hints : Nat)
    (tmo : Bool) : SessionState :=
  let currentWord := st.words.getD st.currentIndex default
  let skipEntry : AnswerResult :=
    { word := currentWord.word
      correct := false
      userAnswer := if userInput = "" then "(skipped)" else userInput
      hintsUsed := hints
      timeout := tmo }
  let after := handleNext st
  { after with results := st.results ++ [skipEntry] }

/-! ## Speech service (`useSpeech.js`, hybrid version)

The `speak` control flow is embedded as a trace of observable events.  The
outcome of the race between `canplaythrough`, `error` and the 3-second
load timer inside `playDictionaryAudio` is a parameter (`DictOutcome`);
the embedding follows the promise chain of `speak` for each outcome.  The
`onstart` callback of a synthesis utterance (the point where
`isSpeaking` becomes true) is the `synthStart` event. -/

/-- Which of the three racing callbacks of `playDictionaryAudio` fires
first. -/
inductive DictOutcome where
  | canplay
  | loadError
  | timeout
deriving DecidableEq

/-- Observable speech-service events, in order of occurrence. -/
inductive SpeechEvent where
  /-- Event for `stop()`: both channels cancelled, `isSpeaking` set to `false`. -/
  | stopAll : SpeechEvent
  /-- dictionary audio requested for a word (src assigned, load started) -/
  | dictRequest : String → SpeechEvent
  /-- dictionary playback begins (`isSpeaking` set to `true`) -/
  | dictPlay : String → SpeechEvent
  /-- Event for `speechSynthesis.speak` with text, language and rate -/
  | synthSpeak : String → String → ℚ → SpeechEvent
  /-- the `onstart` of the utterance fired (`isSpeaking` set to `true`) -/
  | synthStart : SpeechEvent
  /-- an error escaped to the caller of `speak` -/
  | raised : String → SpeechEvent
deriving DecidableEq

/-- The regular-expression test `/^[a-zA-Z]+$/.test(text.trim())`. -/
def isSingleWord (text : String) : Bool :=
  let t := trimChars text.toList
  !t.isEmpty && t.all fun c =>
    ('a' ≤ c && c ≤ 'z') || ('A' ≤ c && c ≤ 'Z')

/-- Embeds `playDictionaryAudio(word)`: the emitted events and the promise
outcome.  On `canplaythrough` before the timeout, `isSpeaking` is set and
playback starts (the promise resolves); on `error` or timeout the promise
rejects with the corresponding message. -/
def playDictionaryAudio (word : String) (outcome : DictOutcome) :
    List SpeechEvent × Except String Unit :=
  match outcome with
  | .canplay => ([.dictRequest word, .dictPlay word], .ok ())
  | .loadError => ([.dictRequest word], .error "Failed to load dictionary audio")
  | .timeout => ([.dictRequest word], .error "Dictionary audio load timeout")

/-- Embeds `speakWithWebSpeech(text, lang, rate)`: warn-and-return when synthesis
is unsupported; otherwise hand an utterance to the synthesis queue, whose
`onstart` marks the beginning of playback. -/
def speakWithWebSpeech (isSupported : Bool) (text lang : String) (rate : ℚ) :
    List SpeechEvent :=
  if isSupported then [.synthSpeak text lang rate, .synthStart] else []

/-- Embeds `speak(text, lang, rate)`: stop everything; for a single alphabetic
token with `audioSource` other than `webspeech`, try dictionary audio and return
on success; a rejection is caught (`console.log`) and, when
`audioSource` other than `dictionary`, the synthesis fallback runs with the same
arguments.  The second component is the error propagated to the caller —
structurally `none`, because the `try`/`catch` swallows the rejection. -/
def speak (audioSource : String) (isSupported : Bool) (outcome : DictOutcome)
    (text lang : String) (rate : ℚ) : List SpeechEvent × Option String :=
  let stopEvents : List SpeechEvent := [.stopAll]
  let fallback : List SpeechEvent :=
    if audioSource ≠ "dictionary" then
      speakWithWebSpeech isSupported text lang rate
    else []
  if audioSource ≠ "webspeech" ∧ isSingleWord text then
    match playDictionaryAudio (jsTrim text) outcome with
    | (evs, .ok ()) => (stopEvents ++ evs, none)
    | (evs, .error _) => (stopEvents ++ evs ++ fallback, none)
  else
    (stopEvents ++ fallback, none)

/-- The value of the `isSpeaking` flag after a trace of events. -/
def speakingAfter (events : List SpeechEvent) : Bool :=
  events.foldl
    (fun b e =>
      match e with
      | .stopAll => false
      | .dictPlay _ => true
      | .synthStart => true
      | _ => b)
    false

/-! ## Derived notions used by the theorems -/

/-- Repeated application of `getHint`, one seed per application (the user
pressing the hint button repeatedly). -/
def applyHints (correctWord : List Char) (puzzle : List Char) :
    List Nat → List Char
  | [] => puzzle
  | s :: rest => applyHints correctWord (getHint puzzle correctWord s) rest

/-- The invariant tying a puzzle to its word: same length, and every
position is either still masked or already carries the matching
character. -/
def agrees (p w : List Char) : Prop :=
  p.length = w.length ∧
    ∀ i, i < p.length → p.getD i '?' = '_' ∨ p.getD i '?' = w.getD i '?'

/-- A one-entry word list used to exercise the final-position behaviour of
the controllers on concrete inputs. -/
def appleEntry : WordEntry :=
  { word := "apple", meaning := "", phonetic := "", exampleSentence := "" }

/-- A word entry distinct from `"cat"`, used to exercise
`generateWrongOptions` on concrete inputs. -/
def dogEntry : WordEntry :=
  { word := "dog", meaning := "", phonetic := "", exampleSentence := "" }

/-- A session whose single word was just answered incorrectly: the state
reached from `initSession [appleEntry]` by submitting `"wrong"`. -/
def missedLastState : SessionState :=
  handleSubmit (initSession [appleEntry]) "wrong" 0 false

/-- The local `wrongOptions` binding of `generateWrongOptions`: every word
of the list whose `word` field differs from the correct word. -/
def wrongPool (allWords : List WordEntry) (correctWord : String) :
    List String :=
  (allWords.filter (fun w => w.word ≠ correctWord)).map (fun w => w.word)

/-- Further concrete word entries for exercising `generateWrongOptions`. -/
def catEntry : WordEntry :=
  { word := "cat", meaning := "", phonetic := "", exampleSentence := "" }

/-- See `catEntry`. -/
def sunEntry : WordEntry :=
  { word := "sun", meaning := "", phonetic := "", exampleSentence := "" }

/-- See `catEntry`. -/
def skyEntry : WordEntry :=
  { word := "sky", meaning := "", phonetic := "", exampleSentence := "" }

/-! ## Theorems -/

/-- C7: for every results sequence, `correct + incorrect = total`. -/
theorem calculateStats_partition (r : List AnswerResult) :
    (calculateStats r).correct + (calculateStats r).incorrect = r.length := by
  have h : (r.filter (fun x => x.correct)).length ≤ r.length :=
    r.length_filter_le _
  simp only [calculateStats]
  omega

/-- C3: `calculateStats` computes `accuracy` over the hint-free results
only: `round(100 * correctWithoutHints / withoutHints)`, and `0` when no
result is hint-free. -/
theorem calculateStats_accuracy (r : List AnswerResult) :
    (calculateStats r).accuracy =
      (if (r.filter fun x => x.hintsUsed = 0).length = 0 then 0
       else
         jsRound
           ((100 * ((r.filter fun x => x.hintsUsed = 0 ∧ x.correct = true).length : ℚ)) /
             ((r.filter fun x => x.hintsUsed = 0).length : ℚ))) := by
  have hfil :
      (r.filter fun x => x.correct ∧ x.hintsUsed = 0) =
        (r.filter fun x => x.hintsUsed = 0 ∧ x.correct = true) := by
    apply List.filter_congr
    intro x _
    simp [and_comm]
  simp only [calculateStats, hfil]
  rcases Nat.eq_zero_or_pos (r.filter fun x => x.hintsUsed = 0).length with h0 | h0
  · simp [h0]
  · have hne : ¬(r.filter fun x => x.hintsUsed = 0).length = 0 := by omega
    simp only [h0, if_pos, hne, if_neg, not_false_iff]
    ring_nf

/-- C8: `getHistory` yields `[]` when the record is missing or does not
parse (the error is only logged, never raised — the embedding is total),
and after `clearHistory` it yields `[]`. -/
theorem getHistory_degrades {α : Type} (parse : String → Option (List α))
    (s : String) (st : HistoryStore) :
    getHistory parse { record := none } = ([] : List α) ∧
      (parse s = none → getHistory parse { record := some s } = []) ∧
      getHistory parse (clearHistory st) = [] := by
  refine ⟨rfl, fun h => ?_, rfl⟩
  simp [getHistory, h]

/-- Witness for `getHistory_degrades` at a concrete store and failing
parser. -/
theorem getHistory_degrades_witness :
    getHistory (fun _ => (none : Option (List Nat))) { record := none } = [] ∧
      ((fun _ => (none : Option (List Nat))) "bad" = none →
        getHistory (fun _ => (none : Option (List Nat))) { record := some "bad" } = []) ∧
      getHistory (fun _ => (none : Option (List Nat)))
        (clearHistory { record := some "x" }) = [] :=
  getHistory_degrades (fun _ => (none : Option (List Nat))) "bad"
    { record := some "x" }

/-- C4: `generateLetterPuzzle` realizes the length-keyed masking policy of
the specification, and on the two examples of the specification produces
`"c_t"` and `"g_r_e_"`. -/
theorem generateLetterPuzzle_policy :
    (∀ w : List Char, generateLetterPuzzle w = generateLetterPuzzleSpec w) ∧
      generateLetterPuzzle "cat".toList = "c_t".toList ∧
      generateLetterPuzzle "garden".toList = "g_r_e_".toList := by
  refine ⟨fun w => ?_, by decide, by decide⟩
  by_cases h3 : w.length ≤ 3
  · simp [generateLetterPuzzle, generateLetterPuzzleSpec, specMasksAt, h3]
  · by_cases h6 : w.length ≤ 6
    · simp [generateLetterPuzzle, generateLetterPuzzleSpec, specMasksAt, h3, h6]
    · simp [generateLetterPuzzle, generateLetterPuzzleSpec, specMasksAt, h3, h6]

/-! ### Facts about `maskIndices`, `List.set` and hint iteration -/

theorem maskIndicesFrom_mem :
    ∀ (p : List Char) (i j : Nat), j ∈ maskIndicesFrom p i →
      i ≤ j ∧ j - i < p.length ∧ p.getD (j - i) '?' = '_' := by
  intro p
  induction p with
  | nil => intro i j h; simp [maskIndicesFrom] at h
  | cons c cs ih =>
    intro i j h
    simp only [maskIndicesFrom] at h
    by_cases hc : c = '_'
    · rw [if_pos hc] at h
      rcases List.mem_cons.mp h with rfl | h'
      · exact ⟨Nat.le_refl _, by simp, by simpa [Nat.sub_self] using hc⟩
      · obtain ⟨h1, h2, h3⟩ := ih (i + 1) j h'
        refine ⟨by omega, by simp only [List.length_cons]; omega, ?_⟩
        have hji : j - i = (j - (i + 1)) + 1 := by omega
        rw [hji, List.getD_cons_succ]
        exact h3
    · rw [if_neg hc] at h
      obtain ⟨h1, h2, h3⟩ := ih (i + 1) j h
      refine ⟨by omega, by simp only [List.length_cons]; omega, ?_⟩
      have hji : j - i = (j - (i + 1)) + 1 := by omega
      rw [hji, List.getD_cons_succ]
      exact h3

theorem maskIndices_mem {p : List Char} {j : Nat} (h : j ∈ maskIndices p) :
    j < p.length ∧ p.getD j '?' = '_' := by
  obtain ⟨-, h2, h3⟩ := maskIndicesFrom_mem p 0 j h
  simpa using And.intro h2 h3

theorem maskIndicesFrom_eq_nil :
    ∀ (p : List Char) (i : Nat), maskIndicesFrom p i = [] ↔ '_' ∉ p := by
  intro p
  induction p with
  | nil => intro i; simp [maskIndicesFrom]
  | cons c cs ih =>
    intro i
    by_cases hc : c = '_'
    · simp [maskIndicesFrom, hc]
    · simp [maskIndicesFrom, hc, ih (i + 1), Ne.symm hc]

theorem count_set_mask :
    ∀ (p : List Char) (j : Nat) (c : Char), j < p.length →
      p.getD j '?' = '_' → c ≠ '_' →
      (p.set j c).count '_' + 1 = p.count '_' := by
  intro p
  induction p with
  | nil => intro j c h; simp at h
  | cons b t ih =>
    intro j c hj hm hc
    cases j with
    | zero =>
      simp only [List.getD_cons_zero] at hm
      simp [List.set_cons_zero, List.count_cons, hm, hc]
    | succ j' =>
      simp only [List.getD_cons_succ] at hm
      simp only [List.length_cons, Nat.succ_lt_succ_iff] at hj
      simp only [List.set_cons_succ, List.count_cons]
      have := ih j' c hj hm hc
      omega

theorem getD_set_self {p : List Char} {j : Nat} (h : j < p.length) (c : Char) :
    (p.set j c).getD j '?' = c := by
  rw [List.getD_eq_getElem _ _ (by simpa using h)]
  simp [List.getElem_set, h]

theorem getD_set_ne {p : List Char} {i j : Nat} (hne : i ≠ j) (c : Char) :
    (p.set j c).getD i '?' = p.getD i '?' := by
  by_cases hi : i < p.length
  · rw [List.getD_eq_getElem _ _ (by simpa using hi), List.getD_eq_getElem _ _ hi]
    simp [List.getElem_set, Ne.symm hne]
  · rw [List.getD_eq_default _ _ (by simpa using Nat.le_of_not_lt hi),
      List.getD_eq_default _ _ (Nat.le_of_not_lt hi)]

theorem getHint_of_no_mask {p w : List Char} (h : '_' ∉ p) (s : Nat) :
    getHint p w s = p := by
  have hnil : maskIndices p = [] := (maskIndicesFrom_eq_nil p 0).mpr h
  simp [getHint, hnil]

theorem getHint_reveals {p w : List Char} (h : '_' ∈ p) (s : Nat) :
    ∃ j, j < p.length ∧ p.getD j '?' = '_' ∧
      getHint p w s = p.set j (w.getD j '?') := by
  have hnil : maskIndices p ≠ [] := by
    intro hn
    exact (maskIndicesFrom_eq_nil p 0).mp hn h
  have hlen : 0 < (maskIndices p).length := List.length_pos.mpr hnil
  set j := (maskIndices p).getD (s % (maskIndices p).length) 0 with hj
  have hjm : j ∈ maskIndices p := by
    rw [hj, List.getD_eq_getElem _ _ (Nat.mod_lt _ hlen)]
    exact List.getElem_mem _
  obtain ⟨h1, h2⟩ := maskIndices_mem hjm
  refine ⟨j, h1, h2, ?_⟩
  simp only [getHint]
  rw [if_neg (by omega)]

theorem getHint_step {p w : List Char} (hpw : agrees p w) (hw : '_' ∉ w)
    (hp : '_' ∈ p) (s : Nat) :
    agrees (getHint p w s) w ∧ (getHint p w s).count '_' + 1 = p.count '_' := by
  obtain ⟨j, hj, hmask, heq⟩ := getHint_reveals (w := w) hp s
  have hc : w.getD j '?' ≠ '_' := by
    by_cases hjw : j < w.length
    · rw [List.getD_eq_getElem _ _ hjw]
      intro hcontra
      exact hw (hcontra ▸ List.getElem_mem _)
    · rw [List.getD_eq_default _ _ (Nat.le_of_not_lt hjw)]
      decide
  refine ⟨⟨by rw [heq, List.length_set]; exact hpw.1, ?_⟩, ?_⟩
  · intro i hi
    rw [heq] at hi ⊢
    rw [List.length_set] at hi
    by_cases hij : i = j
    · subst hij
      rw [getD_set_self hi]
      right
      rfl
    · rw [getD_set_ne hij]
      exact hpw.2 i hi
  · rw [heq]
    exact count_set_mask p j _ hj hmask hc

theorem agrees_of_count_zero {p w : List Char} (hpw : agrees p w)
    (h0 : p.count '_' = 0) : p = w := by
  have hnm : '_' ∉ p := List.count_eq_zero.mp h0
  apply List.ext_getElem hpw.1
  intro n h1 h2
  rcases hpw.2 n h1 with hmask | hgood
  · exact absurd (by rw [List.getD_eq_getElem _ _ h1] at hmask
                     exact hmask ▸ List.getElem_mem h1) hnm
  · rwa [List.getD_eq_getElem _ _ h1, List.getD_eq_getElem _ _ h2] at hgood

theorem applyHints_complete {w : List Char} (hw : '_' ∉ w) :
    ∀ (seeds : List Nat) (p : List Char), agrees p w →
      seeds.length = p.count '_' → applyHints w p seeds = w := by
  intro seeds
  induction seeds with
  | nil =>
    intro p hpw hlen
    exact agrees_of_count_zero hpw (by simpa using hlen.symm)
  | cons s rest ih =>
    intro p hpw hlen
    simp only [List.length_cons] at hlen
    have hp : '_' ∈ p := by
      by_contra hnp
      rw [List.count_eq_zero.mpr hnp] at hlen
      omega
    obtain ⟨hag, hcount⟩ := getHint_step hpw hw hp s
    simp only [applyHints]
    exact ih _ hag (by omega)

theorem mapIdx_agrees (w : List Char) (f : Nat → Char → Char)
    (hf : ∀ i c, f i c = '_' ∨ f i c = c) : agrees (w.mapIdx f) w := by
  refine ⟨List.length_mapIdx, ?_⟩
  intro i hi
  rw [List.length_mapIdx] at hi
  rw [List.getD_eq_getElem _ _ (by rw [List.length_mapIdx]; exact hi),
    List.getD_eq_getElem _ _ hi]
  have hg := List.get_mapIdx w f i hi
  simp only [List.get_eq_getElem] at hg
  rw [hg]
  exact hf i _

theorem generateLetterPuzzle_agrees (w : List Char) :
    agrees (generateLetterPuzzle w) w := by
  unfold generateLetterPuzzle
  split
  · exact mapIdx_agrees w _ (fun i c => by by_cases h : i = w.length / 2 <;> simp [h])
  · split
    · exact mapIdx_agrees w _ (fun i c => by by_cases h : i % 2 = 1 <;> simp [h])
    · exact mapIdx_agrees w _
        (fun i c => by by_cases h : i % 3 = 1 ∨ i % 5 = 2 <;> simp [h])

/-- C5: `getHint` is the identity on a puzzle with no masked position;
otherwise it reveals exactly one still-masked position with the matching
character there; and iterating it from `generateLetterPuzzle word`, with
one application per masked position, reaches `word` with no mask left —
for every sequence of random choices. -/
theorem getHint_round_trip (p w : List Char) (s : Nat) (w' : List Char)
    (hw' : '_' ∉ w') (seeds : List Nat)
    (hseeds : seeds.length = (generateLetterPuzzle w').count '_') :
    ('_' ∉ p → getHint p w s = p) ∧
      ('_' ∈ p → ∃ j, j < p.length ∧ p.getD j '?' = '_' ∧
        getHint p w s = p.set j (w.getD j '?')) ∧
      applyHints w' (generateLetterPuzzle w') seeds = w' ∧
      (applyHints w' (generateLetterPuzzle w') seeds).count '_' = 0 := by
  have hmain :=
    applyHints_complete hw' seeds _ (generateLetterPuzzle_agrees w') hseeds
  exact ⟨fun h => getHint_of_no_mask h s, fun h => getHint_reveals h s, hmain,
    by rw [hmain]; exact List.count_eq_zero.mpr hw'⟩

/-- Witness for `getHint_round_trip`: one hint on `"c_t"` restores
`"cat"`. -/
theorem getHint_round_trip_witness :
    applyHints "cat".toList (generateLetterPuzzle "cat".toList) [0] =
      "cat".toList :=
  (getHint_round_trip "c_t".toList "cat".toList 0 "cat".toList (by decide)
    [0] (by decide)).2.2.1

/-! ### The Fisher–Yates shuffle permutes its input -/

theorem cons_set_perm [Inhabited α] :
    ∀ (t : List α) (k : Nat), k < t.length → ∀ a : α,
      List.Perm ((t.getD k default) :: t.set k a) (a :: t) := by
  intro t
  induction t with
  | nil => intro k h; simp at h
  | cons b s ih =>
    intro k hk a
    cases k with
    | zero =>
      simp only [List.getD_cons_zero, List.set_cons_zero]
      exact List.Perm.swap a b s
    | succ m =>
      simp only [List.getD_cons_succ, List.set_cons_succ]
      simp only [List.length_cons, Nat.succ_lt_succ_iff] at hk
      exact List.Perm.trans (List.Perm.swap b _ _)
        (List.Perm.trans (List.Perm.cons b (ih m hk a)) (List.Perm.swap a b s))

theorem listSwap_perm [Inhabited α] :
    ∀ (l : List α) (i j : Nat), i < l.length → j < l.length →
      List.Perm (listSwap l i j) l := by
  intro l
  induction l with
  | nil => intro i j hi; simp at hi
  | cons a t ih =>
    intro i j hi hj
    cases i with
    | zero =>
      cases j with
      | zero => simp [listSwap]
      | succ m =>
        simp only [List.length_cons, Nat.succ_lt_succ_iff] at hj
        simp only [listSwap, List.getD_cons_zero, List.getD_cons_succ,
          List.set_cons_zero, List.set_cons_succ]
        exact cons_set_perm t m hj a
    | succ k =>
      cases j with
      | zero =>
        simp only [List.length_cons, Nat.succ_lt_succ_iff] at hi
        simp only [listSwap, List.getD_cons_zero, List.getD_cons_succ,
          List.set_cons_succ, List.set_cons_zero]
        exact cons_set_perm t k hi a
      | succ m =>
        simp only [List.length_cons, Nat.succ_lt_succ_iff] at hi hj
        simp only [listSwap, List.getD_cons_succ, List.set_cons_succ]
        exact List.Perm.cons a (ih k m hi hj)

theorem shuffleLoop_perm [Inhabited α] (seed : Nat → Nat) :
    ∀ (n : Nat) (l : List α), n < l.length → List.Perm (shuffleLoop seed l n) l := by
  intro n
  induction n with
  | zero => intro l _; exact List.Perm.refl l
  | succ m ih =>
    intro l hm
    have hj : seed (m + 1) % (m + 2) < l.length :=
      Nat.lt_of_lt_of_le (Nat.mod_lt _ (by omega)) hm
    have hswap : List.Perm (listSwap l (m + 1) (seed (m + 1) % (m + 2))) l :=
      listSwap_perm l _ _ hm hj
    have hlen : (listSwap l (m + 1) (seed (m + 1) % (m + 2))).length =
        l.length := hswap.length_eq
    exact List.Perm.trans (ih _ (by omega)) hswap

theorem shuffleArray_perm [Inhabited α] (seed : Nat → Nat) (l : List α) :
    List.Perm (shuffleArray seed l) l := by
  cases l with
  | nil => exact List.Perm.refl _
  | cons a t =>
    exact shuffleLoop_perm seed _ _ (by simp)

theorem length_filter_lt {α : Type} (p : α → Bool) :
    ∀ (l : List α) (a : α), a ∈ l → p a = false →
      (l.filter p).length < l.length := by
  intro l
  induction l with
  | nil => intro a h; simp at h
  | cons b t ih =>
    intro a hmem hpa
    rcases List.mem_cons.mp hmem with rfl | hmem'
    · rw [List.filter_cons_of_neg (by simp [hpa])]
      simpa using Nat.lt_succ_of_le (t.length_filter_le p)
    · cases hb : p b with
      | true =>
        rw [List.filter_cons_of_pos (by simp [hb])]
        simpa using Nat.succ_lt_succ (ih a hmem' hpa)
      | false =>
        rw [List.filter_cons_of_neg (by simp [hb])]
        exact Nat.lt_succ_of_lt (ih a hmem' hpa)

theorem mem_wrongPool {allWords : List WordEntry} {correctWord x : String}
    (h : x ∈ wrongPool allWords correctWord) : x ≠ correctWord := by
  obtain ⟨w, hw, rfl⟩ := List.mem_map.mp h
  have := List.of_mem_filter hw
  simpa using this

/-- C6 (amended): `generateWrongOptions` takes the first `count` elements
of a permutation of the pool of words distinct from the correct word; its
output never contains the correct word, has `min count pool.length`
elements, is duplicate-free whenever the input word list is, and has at
most `min count (allWords.length - 1)` elements whenever the correct word
occurs in the list. -/
theorem generateWrongOptions_spec (seed : Nat → Nat)
    (allWords : List WordEntry) (correctWord : String) (count : Nat) :
    correctWord ∉ generateWrongOptions seed allWords correctWord count ∧
      generateWrongOptions seed allWords correctWord count =
        (shuffleArray seed (wrongPool allWords correctWord)).take count ∧
      List.Perm (shuffleArray seed (wrongPool allWords correctWord))
        (wrongPool allWords correctWord) ∧
      (generateWrongOptions seed allWords correctWord count).length =
        min count (wrongPool allWords correctWord).length ∧
      ((allWords.map (fun w => w.word)).Nodup →
        (generateWrongOptions seed allWords correctWord count).Nodup) ∧
      (correctWord ∈ allWords.map (fun w => w.word) →
        (generateWrongOptions seed allWords correctWord count).length ≤
          min count (allWords.length - 1)) := by
  have hperm := shuffleArray_perm seed (wrongPool allWords correctWord)
  have hout : generateWrongOptions seed allWords correctWord count =
      (shuffleArray seed (wrongPool allWords correctWord)).take count := rfl
  have hlen : (generateWrongOptions seed allWords correctWord count).length =
      min count (wrongPool allWords correctWord).length := by
    rw [hout, List.length_take, hperm.length_eq]
  have hsub : List.Sublist (wrongPool allWords correctWord)
      (allWords.map (fun w => w.word)) := by
    unfold wrongPool
    exact (List.filter_sublist allWords).map (fun w => w.word)
  refine ⟨?_, hout, hperm, hlen, ?_, ?_⟩
  · intro hmem
    have h1 : correctWord ∈ shuffleArray seed (wrongPool allWords correctWord) :=
      List.take_subset _ _ (hout ▸ hmem)
    exact mem_wrongPool (hperm.subset h1) rfl
  · intro hnd
    have hpool : (wrongPool allWords correctWord).Nodup := hnd.sublist hsub
    have hshuf : (shuffleArray seed (wrongPool allWords correctWord)).Nodup :=
      hperm.nodup_iff.mpr hpool
    rw [hout]
    exact hshuf.sublist (List.take_sublist count _)
  · intro hmem
    obtain ⟨w, hw, hww⟩ := List.mem_map.mp hmem
    have hflt : (allWords.filter (fun w => w.word ≠ correctWord)).length <
        allWords.length :=
      length_filter_lt _ allWords w hw (by simp [hww])
    have hpl : (wrongPool allWords correctWord).length ≤ allWords.length - 1 := by
      have : (wrongPool allWords correctWord).length =
          (allWords.filter (fun w => w.word ≠ correctWord)).length :=
        List.length_map _ _
      omega
    rw [hlen]
    exact min_le_min (Nat.le_refl count) hpl

/-- Counterexample to C6 as stated: with a word list of three identical
`"dog"` entries (in which `"cat"` does not occur), the output has three
entries — more than `min(3, words.length - 1) = 2` — and they are not
distinct. -/
theorem generateWrongOptions_claim_counterexample :
    generateWrongOptions (fun _ => 0) [dogEntry, dogEntry, dogEntry] "cat" 3 =
        ["dog", "dog", "dog"] ∧
      ¬((generateWrongOptions (fun _ => 0) [dogEntry, dogEntry, dogEntry]
            "cat" 3).length ≤
          min 3 (([dogEntry, dogEntry, dogEntry] : List WordEntry).length - 1)) ∧
      ¬(generateWrongOptions (fun _ => 0) [dogEntry, dogEntry, dogEntry]
          "cat" 3).Nodup := by
  decide

/-- Witness for `generateWrongOptions_spec` on a concrete four-word list
containing `"cat"`. -/
theorem generateWrongOptions_spec_witness :
    "cat" ∉ generateWrongOptions (fun _ => 0)
        [catEntry, dogEntry, sunEntry, skyEntry] "cat" 3 ∧
      (generateWrongOptions (fun _ => 0)
        [catEntry, dogEntry, sunEntry, skyEntry] "cat" 3).Nodup ∧
      (generateWrongOptions (fun _ => 0)
          [catEntry, dogEntry, sunEntry, skyEntry] "cat" 3).length ≤
        min 3 (([catEntry, dogEntry, sunEntry, skyEntry] : List WordEntry).length - 1) := by
  have h := generateWrongOptions_spec (fun _ => 0)
    [catEntry, dogEntry, sunEntry, skyEntry] "cat" 3
  exact ⟨h.1, h.2.2.2.2.1 (by decide), h.2.2.2.2.2 (by decide)⟩

/-! ### Controller theorems -/

theorem handleNext_words (st : SessionState) :
    (handleNext st).words =
      if st.isCorrect ≠ some true ∧
          (st.words.getD st.currentIndex default).retryCount = 0 then
        st.words.insertIdx (min (st.currentIndex + 3) st.words.length)
          { st.words.getD st.currentIndex default with retryCount := 1 }
      else st.words := by
  by_cases hc : st.isCorrect ≠ some true ∧
      (st.words.getD st.currentIndex default).retryCount = 0 <;>
    by_cases ha : st.currentIndex < st.words.length - 1 <;>
      simp [handleNext, hc, ha]

/-- C1: advancing away from a word answered incorrectly whose
`retryCount` is `0` inserts a copy with `retryCount = 1` at
`min(currentIndex + 3, words.length)`; a word whose `retryCount` is
already `1` is never re-inserted (so each word is retried at most once —
every inserted copy carries `retryCount = 1`).  The `handleNext` bodies of
the three controllers are textually identical, so this covers all three
modes. -/
theorem handleNext_retry_insertion (st : SessionState) :
    (st.isCorrect = some false →
        (st.words.getD st.currentIndex default).retryCount = 0 →
        (handleNext st).words =
          st.words.insertIdx (min (st.currentIndex + 3) st.words.length)
            { st.words.getD st.currentIndex default with retryCount := 1 }) ∧
      ((st.words.getD st.currentIndex default).retryCount = 1 →
        (handleNext st).words = st.words) := by
  constructor
  · intro h1 h2
    rw [handleNext_words, if_pos ⟨by simp [h1], h2⟩]
  · intro h2
    rw [handleNext_words,
      if_neg (fun hcon => by rw [h2] at hcon; exact Nat.one_ne_zero hcon.2)]

/-- Witness for `handleNext_retry_insertion`: a one-word session whose
word was just missed. -/
theorem handleNext_retry_insertion_witness :
    (handleNext missedLastState).words =
      missedLastState.words.insertIdx
        (min (missedLastState.currentIndex + 3) missedLastState.words.length)
        { missedLastState.words.getD missedLastState.currentIndex default with
          retryCount := 1 } :=
  (handleNext_retry_insertion missedLastState).1 (by decide) (by decide)

/-- C2 fails on the code: skipping the one word of a one-word session
invokes the completion callback with the results *before* the skip entry
is appended (the render-snapshot `results` read by the nested
`handleNext`), so the callback payload is `[]` even though one attempt —
recorded in `results` — was made. -/
theorem skip_final_word_drops_attempt :
    (handleSkip (initSession [appleEntry]) "" 0 false).completed = some [] ∧
      (handleSkip (initSession [appleEntry]) "" 0 false).results =
        [{ word := "apple", correct := false, userAnswer := "(skipped)",
           hintsUsed := 0, timeout := false }] := by
  decide

/-- C10: when the word at the final position is missed (or skipped — any
`isCorrect ≠ some true`) on its first attempt, `handleNext` still inserts
the `retryCount = 1` copy (at `min(currentIndex + 3, length) = length`,
the end) but compares `currentIndex` against the pre-insertion length and
therefore completes immediately with the existing results: the inserted
copy is never presented and contributes no `AnswerResult`. -/
theorem handleNext_final_word (st : SessionState) (h0 : st.words ≠ [])
    (h1 : st.currentIndex = st.words.length - 1)
    (h2 : st.isCorrect ≠ some true)
    (h3 : (st.words.getD st.currentIndex default).retryCount = 0) :
    (handleNext st).completed = some st.results ∧
      (handleNext st).words =
        st.words ++
          [{ st.words.getD st.currentIndex default with retryCount := 1 }] ∧
      (handleNext st).results = st.results := by
  have hlen : 0 < st.words.length := List.length_pos.mpr h0
  have hmin : min (st.currentIndex + 3) st.words.length = st.words.length := by
    omega
  have hadv : ¬st.currentIndex < st.words.length - 1 := by omega
  have hcond : st.isCorrect ≠ some true ∧
      (st.words.getD st.currentIndex default).retryCount = 0 := ⟨h2, h3⟩
  simp only [handleNext]
  rw [if_pos hcond, if_neg hadv]
  refine ⟨rfl, ?_, rfl⟩
  rw [hmin]
  exact List.insertIdx_length_self _ _

/-- Witness for `handleNext_final_word`: the one-word session whose word
was just missed. -/
theorem handleNext_final_word_witness :
    (handleNext missedLastState).completed = some missedLastState.results ∧
      (handleNext missedLastState).words =
        missedLastState.words ++
          [{ missedLastState.words.getD missedLastState.currentIndex default with
             retryCount := 1 }] ∧
      (handleNext missedLastState).results = missedLastState.results :=
  handleNext_final_word missedLastState (by decide) (by decide) (by decide)
    (by decide)

/-! ### Speech-service theorems -/

theorem speak_no_raise (audioSource : String) (isSupported : Bool)
    (outcome : DictOutcome) (text lang : String) (rate : ℚ) :
    (speak audioSource isSupported outcome text lang rate).2 = none := by
  unfold speak
  split_ifs <;> cases outcome <;> rfl

/-- C9: for a single alphabetic token with an audio-source preference
other than synthesis-only, a failed or timed-out dictionary-audio attempt
is never raised to the caller; when the preference is not dictionary-only
(and synthesis is available), the synthesis fallback is invoked with the
same text, and `isSpeaking` is still false at every point of the trace
strictly before the fallback playback starts. -/
theorem speak_failure_falls_back (audioSource : String) (isSupported : Bool)
    (outcome : DictOutcome) (text lang : String) (rate : ℚ)
    (hword : isSingleWord text = true) (hsrc : audioSource ≠ "webspeech")
    (hfail : outcome ≠ DictOutcome.canplay) :
    (speak audioSource isSupported outcome text lang rate).2 = none ∧
      (audioSource ≠ "dictionary" → isSupported = true →
        (speak audioSource isSupported outcome text lang rate).1 =
          [SpeechEvent.stopAll, SpeechEvent.dictRequest (jsTrim text),
            SpeechEvent.synthSpeak text lang rate, SpeechEvent.synthStart] ∧
        ∀ n, SpeechEvent.synthStart ∉
            ((speak audioSource isSupported outcome text lang rate).1.take n) →
          speakingAfter
            ((speak audioSource isSupported outcome text lang rate).1.take n) =
            false) := by
  refine ⟨speak_no_raise _ _ _ _ _ _, fun hdict hsup => ?_⟩
  subst hsup
  have htr : (speak audioSource true outcome text lang rate).1 =
      [SpeechEvent.stopAll, SpeechEvent.dictRequest (jsTrim text),
        SpeechEvent.synthSpeak text lang rate, SpeechEvent.synthStart] := by
    unfold speak
    rw [if_pos ⟨hsrc, hword⟩]
    cases outcome with
    | canplay => exact absurd rfl hfail
    | loadError => simp [playDictionaryAudio, speakWithWebSpeech, hdict]
    | timeout => simp [playDictionaryAudio, speakWithWebSpeech, hdict]
  refine ⟨htr, ?_⟩
  intro n hn
  rw [htr] at hn ⊢
  match n with
  | 0 => rfl
  | 1 => rfl
  | 2 => rfl
  | 3 => rfl
  | m + 4 =>
    exfalso
    apply hn
    rw [List.take_of_length_le (by simp)]
    simp

/-- Witness for `speak_failure_falls_back`: a timed-out dictionary request
for `"cat"` under the default hybrid preference. -/
theorem speak_failure_falls_back_witness :
    (speak "hybrid" true DictOutcome.timeout "cat" "en-US" (4 / 5)).2 = none ∧
      (speak "hybrid" true DictOutcome.timeout "cat" "en-US" (4 / 5)).1 =
        [SpeechEvent.stopAll, SpeechEvent.dictRequest (jsTrim "cat"),
          SpeechEvent.synthSpeak "cat" "en-US" (4 / 5),
          SpeechEvent.synthStart] := by
  have h := speak_failure_falls_back "hybrid" true DictOutcome.timeout "cat"
    "en-US" (4 / 5) (by decide) (by decide) (by decide)
  exact ⟨h.1, (h.2 (by decide) rfl).1⟩

end WordMaster
